import Mathlib

/-!
Verification development for the call-report normalization pipeline
(dictionary parsing, Chicago Fed XPT extraction, FFIEC bulk parsing,
corpus summarizing).  Python sources are shallowly embedded as Lean
functions; filesystem effects are modelled as association lists from
output keys to written contents.
-/

set_option maxHeartbeats 1000000
set_option maxRecDepth 4000

namespace CallReport

/-! ### Character and string helpers

`isDigitChar` models the regex class `\d` (ASCII digits).  `toLowerChar` /
`toUpperChar` model Python `str.lower()` / `str.upper()` on the ASCII range
(the filenames and column names handled by the pipeline are ASCII). -/

def isDigitChar (c : Char) : Bool :=
  decide (48 ≤ c.toNat) && decide (c.toNat ≤ 57)

def digitVal (c : Char) : Nat := c.toNat - 48

def toLowerChar (c : Char) : Char :=
  if 65 ≤ c.toNat ∧ c.toNat ≤ 90 then Char.ofNat (c.toNat + 32) else c

def toUpperChar (c : Char) : Char :=
  if 97 ≤ c.toNat ∧ c.toNat ≤ 122 then Char.ofNat (c.toNat - 32) else c

def toUpperStr (s : String) : String := String.mk (s.data.map toUpperChar)

/-- Models Python `s.split(sep)` for a one-character separator, on the
character list of the string.  `"a,b"` splits to `["a", "b"]`, `"a,"` to
`["a", ""]`. -/
def splitCharsOn (sep : Char) : List Char → List (List Char)
  | [] => [[]]
  | c :: cs =>
    let r := splitCharsOn sep cs
    if c = sep then [] :: r
    else
      match r with
      | h :: t => (c :: h) :: t
      | [] => [[c]]

def splitStrOn (sep : Char) (s : String) : List String :=
  (splitCharsOn sep s.data).map String.mk

/-! ### Calendar dates

`pd.Timestamp` values are modelled as (year, month, day) triples with the
chronological (lexicographic) order. -/

structure CDate where
  year : Nat
  month : Nat
  day : Nat
deriving DecidableEq, Repr

def dateLt (a b : CDate) : Prop :=
  a.year < b.year ∨
    (a.year = b.year ∧
      (a.month < b.month ∨ (a.month = b.month ∧ a.day < b.day)))

instance : DecidableRel dateLt := fun a b =>
  inferInstanceAs (Decidable (a.year < b.year ∨
    (a.year = b.year ∧
      (a.month < b.month ∨ (a.month = b.month ∧ a.day < b.day)))))

/-- `pd.Timestamp.quarter`: quarter of the month, `(month - 1) // 3 + 1`. -/
def quarterOfMonth (m : Nat) : Nat := (m - 1) / 3 + 1

def quarterOfDate (d : CDate) : Nat := quarterOfMonth d.month

/-- The four fixed quarter-end calendar dates: Mar 31, Jun 30, Sep 30, Dec 31. -/
def isQuarterEndDate (d : CDate) : Bool :=
  (decide (d.month = 3) && decide (d.day = 31)) ||
  (decide (d.month = 6) && decide (d.day = 30)) ||
  (decide (d.month = 9) && decide (d.day = 30)) ||
  (decide (d.month = 12) && decide (d.day = 31))

def isLeapYear (y : Nat) : Bool :=
  (decide (y % 4 = 0) && decide (y % 100 ≠ 0)) || decide (y % 400 = 0)

/-- The true number of days of month `m` of year `y` (Gregorian calendar). -/
def daysInMonth (y m : Nat) : Nat :=
  if m = 2 then (if isLeapYear y then 29 else 28)
  else if m = 4 ∨ m = 6 ∨ m = 9 ∨ m = 11 then 30
  else 31

/-! ### Association maps

Output directories are modelled as association lists from keys to written
contents: `alookup` is `Path.exists` / read, `awrite` is a (re)write of one
output file. -/

def alookup {κ α : Type} [DecidableEq κ] : List (κ × α) → κ → Option α
  | [], _ => none
  | (k, v) :: rest, q => if k = q then some v else alookup rest q

def awrite {κ α : Type} [DecidableEq κ] : List (κ × α) → κ → α → List (κ × α)
  | [], q, v => [(q, v)]
  | (k, w) :: rest, q, v =>
    if k = q then (q, v) :: rest else (k, w) :: awrite rest q v

theorem alookup_awrite_self {κ α : Type} [DecidableEq κ]
    (fs : List (κ × α)) (k : κ) (v : α) :
    alookup (awrite fs k v) k = some v := by
  induction fs with
  | nil => simp [awrite, alookup]
  | cons hd tl ih =>
    obtain ⟨k0, v0⟩ := hd
    by_cases h : k0 = k
    · simp [awrite, alookup, h]
    · simp [awrite, alookup, h, ih]

theorem alookup_awrite_ne {κ α : Type} [DecidableEq κ]
    (fs : List (κ × α)) (k q : κ) (v : α) (h : q ≠ k) :
    alookup (awrite fs k v) q = alookup fs q := by
  induction fs with
  | nil => simp [awrite, alookup, Ne.symm h]
  | cons hd tl ih =>
    obtain ⟨k0, v0⟩ := hd
    by_cases h0 : k0 = k
    · subst h0
      simp [awrite, alookup, Ne.symm h]
    · simp only [awrite, if_neg h0, alookup]
      by_cases h1 : k0 = q <;> simp [h1, ih]

theorem awrite_eq_of_alookup {κ α : Type} [DecidableEq κ]
    (fs : List (κ × α)) (k : κ) (v : α) (h : alookup fs k = some v) :
    awrite fs k v = fs := by
  induction fs with
  | nil => simp [alookup] at h
  | cons hd tl ih =>
    obtain ⟨k0, v0⟩ := hd
    by_cases h0 : k0 = k
    · subst h0
      simp only [alookup, if_pos, eq_self_iff_true, if_true, Option.some.injEq] at h
      simp [awrite, h]
    · simp only [alookup, if_neg h0] at h
      simp [awrite, h0, ih h]

/-! ### Chicago Fed period inferrer

Embeds `infer_reporting_period_from_filename` of `04_parse_chicago.py` /
`parse_chicago.py`: the leftmost match of the regex `call?p?(\d{2})(\d{2})`
against the lower-cased filename, tried with the regex engine's greedy
backtracking over the two optional letters. -/

def grab4 : List Char → Option (Nat × Nat)
  | a :: b :: c :: d :: _ =>
    if isDigitChar a && isDigitChar b && isDigitChar c && isDigitChar d then
      some (10 * digitVal a + digitVal b, 10 * digitVal c + digitVal d)
    else none
  | _ => none

/-- Matching of `l?p?(\d{2})(\d{2})` at the head of the list, alternatives
in the greedy order the regex engine tries them. -/
def afterCal (l : List Char) : Option (Nat × Nat) :=
  match l with
  | 'l' :: 'p' :: r =>
    match grab4 r with
    | some v => some v
    | none =>
      match grab4 ('p' :: r) with
      | some v => some v
      | none => grab4 ('l' :: 'p' :: r)
  | 'l' :: r =>
    match grab4 r with
    | some v => some v
    | none => grab4 ('l' :: r)
  | 'p' :: r =>
    match grab4 r with
    | some v => some v
    | none => grab4 ('p' :: r)
  | _ => grab4 l

def matchCallAt : List Char → Option (Nat × Nat)
  | 'c' :: 'a' :: 'l' :: r => afterCal r
  | _ => none

/-- `re.search`: leftmost position where the pattern matches. -/
def searchCall : List Char → Option (Nat × Nat)
  | [] => none
  | c :: cs =>
    match matchCallAt (c :: cs) with
    | some v => some v
    | none => searchCall cs

def infer_reporting_period_from_filename (filename : String) : Option CDate :=
  match searchCall (filename.data.map toLowerChar) with
  | none => none
  | some (yy, mm) =>
    let y := if 76 ≤ yy then 1900 + yy else 2000 + yy
    if mm = 3 then some ⟨y, 3, 31⟩
    else if mm = 6 then some ⟨y, 6, 30⟩
    else if mm = 9 then some ⟨y, 9, 30⟩
    else if mm = 12 then some ⟨y, 12, 31⟩
    else none

/-! ### FFIEC quarter extractor

Embeds `extract_quarter_from_filename` of `05_parse_ffiec.py` /
`parse_ffiec.py`.  Both regexes `(\d{2})(\d{2})(\d{4})` and
`(\d{4})(\d{2})(\d{2})` match exactly the leftmost run of 8 consecutive
digit characters, so one search is performed and the 8 digits are then
interpreted first as MMDDYYYY and, if that fails validation, as
YYYYMMDD — exactly the source's two sequential `re.search` attempts. -/

def take8Digits (l : List Char) : Option (List Char) :=
  if (l.take 8).length = 8 ∧ (l.take 8).all isDigitChar then
    some (l.take 8)
  else none

def searchDigits8 : List Char → Option (List Char)
  | [] => none
  | c :: cs =>
    match take8Digits (c :: cs) with
    | some v => some v
    | none => searchDigits8 cs

/-- Quarter from month/day: exact quarter-end match when available, else
integer-dividing the month into quarters as a fallback. -/
def quarterFromMonthDay (m d : Nat) : Nat :=
  if m = 3 ∧ d = 31 then 1
  else if m = 6 ∧ d = 30 then 2
  else if m = 9 ∧ d = 30 then 3
  else if m = 12 ∧ d = 31 then 4
  else (m - 1) / 3 + 1

/-- The shared month/day/year validation and quarter derivation of both
branches of `extract_quarter_from_filename`. -/
def validQuarter (month day year : Nat) : Option (Nat × Nat) :=
  if 1 ≤ month ∧ month ≤ 12 ∧ 1 ≤ day ∧ day ≤ 31 ∧ 1985 ≤ year ∧ year ≤ 2030 then
    some (year, quarterFromMonthDay month day)
  else none

def extract_quarter_from_filename (filename : String) : Option (Nat × Nat) :=
  match searchDigits8 filename.data with
  | none => none
  | some ds =>
    match ds.map digitVal with
    | [a, b, c, d, e, f, g, h] =>
      match validQuarter (10 * a + b) (10 * c + d) (1000 * e + 100 * f + 10 * g + h) with
      | some v => some v
      | none => validQuarter (10 * e + f) (10 * g + h) (1000 * a + 100 * b + 10 * c + d)
    | _ => none

/-! ### Reference dictionary (03_parse_dictionary.py)

A row of the filtered MDRM table: `code` models the constructed
`_full_variable` (Mnemonic + Item Code), `endDate` the parsed validity end
date `_end_date` (`none` = `NaT`, a missing end date), `desc` the raw
description.  `parse_dictionary` keeps one row per code by sorting on
`_end_date` descending with `na_position='first'` and dropping duplicate
codes keeping the first row (lines 147-154). -/

structure DictRow where
  code : String
  endDate : Option Nat
  desc : String
deriving DecidableEq, Repr

/-- `a` sorts at-or-before `b` in the `ascending=False, na_position='first'`
order: a missing end date comes first (most recent), then dates descending. -/
def edBefore : Option Nat → Option Nat → Prop
  | none, _ => True
  | some _, none => False
  | some x, some y => y ≤ x

instance : ∀ a b, Decidable (edBefore a b)
  | none, _ => .isTrue trivial
  | some _, none => .isFalse id
  | some x, some y => Nat.decLe y x

def rDict (a b : DictRow) : Prop := edBefore a.endDate b.endDate

instance : DecidableRel rDict := fun a b =>
  inferInstanceAs (Decidable (edBefore a.endDate b.endDate))

instance : IsTotal DictRow rDict where
  total := by
    intro a b
    unfold rDict
    generalize a.endDate = x
    generalize b.endDate = y
    cases x <;> cases y <;> simp [edBefore]
    all_goals omega

instance : IsTrans DictRow rDict where
  trans := by
    intro a b c
    unfold rDict
    generalize a.endDate = x
    generalize b.endDate = y
    generalize c.endDate = z
    cases x <;> cases y <;> cases z <;> simp [edBefore]
    all_goals omega

/-- `df.sort_values('_end_date', ascending=False, na_position='first')`.
The sort algorithm is irrelevant to the properties proved here (they are
stated up to the key order only); a stable insertion sort is used. -/
def sortByEndDateDesc (rows : List DictRow) : List DictRow :=
  List.insertionSort rDict rows

/-- `df.drop_duplicates(subset=['_full_variable'], keep='first')`. -/
def dedupKeepFirst : List String → List DictRow → List DictRow
  | _, [] => []
  | seen, r :: rs =>
    if r.code ∈ seen then dedupKeepFirst seen rs
    else r :: dedupKeepFirst (r.code :: seen) rs

/-- Lines 147-154 of `03_parse_dictionary.py`: the descriptor set after
sorting by validity end date (missing first, then most recent first) and
keeping the first row of each code. -/
def parse_dictionary_dedup (rows : List DictRow) : List DictRow :=
  dedupKeepFirst [] (sortByEndDateDesc rows)

/-! ### Entity classification and the 04_parse_chicago.py store

`ChRow` is one row of a parsed XPT table: `rssd9331` the classification
code, `rssdId` the institution identifier (other fields are irrelevant to
the claims).  Output parquet paths `<output>/<entity>/<year>Q<q>.parquet`
are modelled as structured keys (the rendering `<dir>/<y>Q<q>` is injective,
so lookup behaviour is unchanged). -/

structure ChRow where
  rssd9331 : Int
  rssdId : Int
deriving DecidableEq, Repr

inductive EntityType
  | FFIEC_031_041
  | FFIEC_002
  | FRB_2886b
deriving DecidableEq, Repr

/-- The `rssd9331_values` of `ENTITY_TYPES` in `04_parse_chicago.py`. -/
def rssd9331_values : EntityType → List Int
  | .FFIEC_031_041 => [1]
  | .FFIEC_002 => [10, 11]
  | .FRB_2886b => [13, 17]

def entityTypeName : EntityType → String
  | .FFIEC_031_041 => "FFIEC_031_041"
  | .FFIEC_002 => "FFIEC_002"
  | .FRB_2886b => "FRB_2886b"

/-- Iteration order of the `ENTITY_TYPES` dict. -/
def entityTypesList : List EntityType :=
  [.FFIEC_031_041, .FFIEC_002, .FRB_2886b]

structure QPath where
  dir : String
  year : Nat
  quarter : Nat
deriving DecidableEq, Repr

def qPathFor (et : EntityType) (p : CDate) : QPath :=
  ⟨entityTypeName et, p.year, quarterOfDate p⟩

def cutoff2010 : CDate := ⟨2010, 12, 31⟩

/-- `process_quarter` skips `FFIEC_031_041` for quarters after 2010Q4:
an entity type is applicable unless it is `FFIEC_031_041` and the
reporting period is strictly after 2010-12-31. -/
def entityApplicable (p : CDate) (et : EntityType) : Bool :=
  !(decide (et = EntityType.FFIEC_031_041) && decide (dateLt cutoff2010 p))

/-- `df[df['RSSD9331'].isin(config['rssd9331_values'])]`. -/
def entityRows (rows : List ChRow) (et : EntityType) : List ChRow :=
  rows.filter fun r => decide (r.rssd9331 ∈ rssd9331_values et)

/-- A written Chicago artifact: the reporting period stamped onto every row
(`df['reporting_period'] = reporting_period`) together with the rows. -/
abbrev ChArtifact := CDate × List ChRow

abbrev ChStore := List (QPath × ChArtifact)

inductive ChOutcome
  | skipped
  | results (counts : List (EntityType × Nat))
deriving DecidableEq, Repr

/-- The skip-if-exists pre-check of `process_quarter` (lines 177-188):
all output files of applicable entity types already exist. -/
def allOutputsExist (fs : ChStore) (p : CDate) : Bool :=
  entityTypesList.all fun et =>
    !(entityApplicable p et) || (alookup fs (qPathFor et p)).isSome

/-- One iteration of the split-and-write loop of `process_quarter`
(lines 237-257): skip inapplicable entity types, filter the rows, and for a
non-empty result write the entity table immediately and record its count. -/
def writeEntityStep (p : CDate) (rows : List ChRow)
    (acc : List (EntityType × Nat) × ChStore) (et : EntityType) :
    List (EntityType × Nat) × ChStore :=
  if entityApplicable p et then
    let er := entityRows rows et
    if 0 < er.length then
      (acc.1 ++ [(et, er.length)], awrite acc.2 (qPathFor et p) (p, er))
    else acc
  else acc

/-- The split-and-write loop of `process_quarter`: one pass over
`ENTITY_TYPES`. -/
def writeEntities (p : CDate) (rows : List ChRow) (fs : ChStore) :
    List (EntityType × Nat) × ChStore :=
  entityTypesList.foldl (writeEntityStep p rows) ([], fs)

/-- `process_quarter` of `04_parse_chicago.py`.  `input` is the result of
reading the XPT file: `none` for a read failure (the caught exception path
returns the empty dict), otherwise whether the `RSSD9331` column is present
together with the rows. -/
def process_quarter (force : Bool) (p : CDate)
    (input : Option (Bool × List ChRow)) (fs : ChStore) :
    ChOutcome × ChStore :=
  if !force && allOutputsExist fs p then (.skipped, fs)
  else
    match input with
    | none => (.results [], fs)
    | some (hasCol, rows) =>
      if !hasCol then (.results [], fs)
      else
        let out := writeEntities p rows fs
        (.results out.1, out.2)

/-- One file of the main loop of `04_parse_chicago.py`: files whose period
cannot be inferred are filtered out beforehand; otherwise the inferred
period is passed to `process_quarter`. -/
def chicago04FileStep (force : Bool) (fname : String)
    (input : Option (Bool × List ChRow)) (fs : ChStore) : ChStore :=
  match infer_reporting_period_from_filename fname with
  | none => fs
  | some p => (process_quarter force p input fs).2

/-! ### parse_chicago.py (legacy stage-1 script)

`process_file_wrapper` writes `<output>/<year>Q<q>.parquet` with no
existence check at all.  Flat output paths are modelled with `dir := ""`. -/

inductive WStatus
  | success
  | skipped
  | error
deriving DecidableEq, Repr

/-- `process_file_wrapper` of `parse_chicago.py` (lines 136-181): infer the
period (unparseable or out-of-bounds names are skipped), extract the table
(`none` = extraction failure), then write unconditionally. -/
def process_file_wrapper (startD endD : Option CDate) (fname : String)
    (input : Option (List ChRow)) (fs : ChStore) : WStatus × ChStore :=
  match infer_reporting_period_from_filename fname with
  | none => (.skipped, fs)
  | some rp =>
    if (match startD with | some s => decide (dateLt rp s) | none => false) then
      (.skipped, fs)
    else if (match endD with | some e => decide (dateLt e rp) | none => false) then
      (.skipped, fs)
    else
      match input with
      | none => (.error, fs)
      | some rows =>
        (.success, awrite fs ⟨"", rp.year, quarterOfDate rp⟩ (rp, rows))

/-! ### FFIEC tables and 05_parse_ffiec.py

A parsed FFIEC table is a list of named columns; a cell is missing (`na`),
numeric, text, or a timestamp.  `filter_columns`,
`convert_to_standard_format` and the per-file body of `main` are embedded
below. -/

inductive Cell
  | na
  | num (v : Int)
  | text (s : String)
  | date (d : CDate)
deriving DecidableEq, Repr

structure FCol where
  name : String
  cells : List Cell
deriving DecidableEq, Repr

abbrev FTable := List FCol

abbrev FormMap := List (String × String)

def METADATA_COLUMNS : List String :=
  ["REPORTING_PERIOD", "RSSD_ID", "RSSD9001", "IDRSSD"]

def FFIEC_031_041_FORMS : List String :=
  ["FFIEC 031", "FFIEC 041", "FFIEC 032", "FFIEC 033", "FFIEC 034", "FFIEC 051"]

/-- `form_mapping.get(col_upper, '')` followed by `forms_str.split(',')`
when non-empty: the list of forms mapped to an (uppercased) column name. -/
def formsOf (m : FormMap) (colU : String) : List String :=
  match alookup m colU with
  | none => []
  | some s => if s = "" then [] else splitStrOn ',' s

def hasData (c : FCol) : Bool := c.cells.any fun v => decide (v ≠ Cell.na)

/-- The `on_form` computation of `filter_columns`: guarded by a non-empty
mapping, the column's form set must intersect `FFIEC_031_041_FORMS`. -/
def onForm (m : FormMap) (colU : String) : Bool :=
  !m.isEmpty &&
    (formsOf m colU).any fun f => decide (f ∈ FFIEC_031_041_FORMS)

def keepColumn (m : FormMap) (c : FCol) : Bool :=
  decide (toUpperStr c.name ∈ METADATA_COLUMNS) ||
    onForm m (toUpperStr c.name) || hasData c

/-- `filter_columns` of `05_parse_ffiec.py` (lines 71-100). -/
def filter_columns (m : FormMap) (tbl : FTable) : FTable :=
  tbl.filter (keepColumn m)

def sortStrings (l : List String) : List String :=
  List.insertionSort (fun a b : String => a ≤ b) l

/-- `convert_to_standard_format`: stamp `REPORTING_PERIOD` onto every row,
uppercase the column names, then reorder to
`['RSSD_ID', 'REPORTING_PERIOD']` followed by the remaining names sorted.
(The reporting-period assignment replaces an existing exact-name
`REPORTING_PERIOD` column; position before the reorder is immaterial.) -/
def convert_to_standard_format (tbl : FTable) (rp : CDate) : FTable :=
  let n := (tbl.head?.map fun c => c.cells.length).getD 0
  let tbl1 := (tbl.filter fun c => decide (c.name ≠ "REPORTING_PERIOD")) ++
    [⟨"REPORTING_PERIOD", List.replicate n (Cell.date rp)⟩]
  let tbl2 := tbl1.map fun c => FCol.mk (toUpperStr c.name) c.cells
  let metaNames := ["RSSD_ID", "REPORTING_PERIOD"]
  let mdrmNames :=
    sortStrings ((tbl2.map FCol.name).filter fun nm => decide (nm ∉ metaNames))
  (metaNames ++ mdrmNames).flatMap fun nm => tbl2.filter fun c => decide (c.name = nm)

abbrev FStore := List (QPath × FTable)

inductive FStatus
  | errorNoQuarter
  | skipped
  | errorNoData
  | success
deriving DecidableEq, Repr

/-- The per-file body of `main` in `05_parse_ffiec.py` (lines 534-581):
extract the quarter from the filename, skip if the output exists and
`force` is unset, parse (`parsed = none` models a parse failure or an empty
result), convert, filter columns, and write.  The reporting period written
is `pd.Timestamp(year=year, month=quarter*3, day=1)` (line 562). -/
def ffiecMainStep (force : Bool) (fname : String) (parsed : Option FTable)
    (m : FormMap) (fs : FStore) : FStatus × FStore :=
  match extract_quarter_from_filename fname with
  | none => (.errorNoQuarter, fs)
  | some (y, q) =>
    let path : QPath := ⟨"FFIEC_031_041", y, q⟩
    if (alookup fs path).isSome && !force then (.skipped, fs)
    else
      match parsed with
      | none => (.errorNoData, fs)
      | some tbl =>
        if tbl.isEmpty then (.errorNoData, fs)
        else
          let rp : CDate := ⟨y, q * 3, 1⟩
          let out := filter_columns m (convert_to_standard_format tbl rp)
          (.success, awrite fs path out)

/-! ### Gap detection (06_summarize.py, lines 421-437)

For each consecutive pair of present periods the expected next quarter is
computed (quarter incremented, year rolled at Q4); on a mismatch the
expected quarter is reported. -/

def expectedNextQuarter (p : Nat × Nat) : Nat × Nat :=
  if p.2 = 4 then (p.1 + 1, 1) else (p.1, p.2 + 1)

def detect_gaps : List (Nat × Nat) → List (Nat × Nat)
  | a :: b :: rest =>
    (if b ≠ expectedNextQuarter a then [expectedNextQuarter a] else []) ++
      detect_gaps (b :: rest)
  | _ => []

/-! ### Helper lemmas -/

theorem edBefore_refl (a : Option Nat) : edBefore a a := by
  cases a <;> simp [edBefore]

theorem detect_gaps_chain (l : List (Nat × Nat))
    (h : List.Chain' (fun a b => b = expectedNextQuarter a) l) :
    detect_gaps l = [] := by
  induction l with
  | nil => rfl
  | cons a t ih =>
    cases t with
    | nil => rfl
    | cons b r =>
      rw [List.chain'_cons] at h
      have hdg := ih h.2
      simp only [detect_gaps, hdg, List.append_nil]
      rw [if_neg (not_not_intro h.1)]

theorem detect_gaps_eq_filterMap (l : List (Nat × Nat)) :
    detect_gaps l =
      (l.zip l.tail).filterMap fun ab =>
        if ab.2 ≠ expectedNextQuarter ab.1 then some (expectedNextQuarter ab.1)
        else none := by
  induction l with
  | nil => rfl
  | cons a t ih =>
    cases t with
    | nil => rfl
    | cons b r =>
      simp only [detect_gaps]
      rw [ih]
      simp only [List.tail_cons, List.zip_cons_cons, List.filterMap_cons]
      rcases eq_or_ne b (expectedNextQuarter a) with h | h
      · rw [if_neg (not_not_intro h), if_neg (not_not_intro h)]
        simp
      · rw [if_pos h, if_pos h]
        simp

theorem dedup_mem_of_mem {seen : List String} {l : List DictRow} {k : DictRow}
    (h : k ∈ dedupKeepFirst seen l) : k ∈ l := by
  induction l generalizing seen with
  | nil => simp [dedupKeepFirst] at h
  | cons x xs ih =>
    by_cases hx : x.code ∈ seen
    · simp only [dedupKeepFirst, if_pos hx] at h
      exact List.mem_cons_of_mem _ (ih h)
    · simp only [dedupKeepFirst, if_neg hx] at h
      rcases List.mem_cons.mp h with rfl | h
      · exact List.mem_cons_self _ _
      · exact List.mem_cons_of_mem _ (ih h)

theorem dedup_code_not_seen {seen : List String} {l : List DictRow} {k : DictRow}
    (h : k ∈ dedupKeepFirst seen l) : k.code ∉ seen := by
  induction l generalizing seen with
  | nil => simp [dedupKeepFirst] at h
  | cons x xs ih =>
    by_cases hx : x.code ∈ seen
    · simp only [dedupKeepFirst, if_pos hx] at h
      exact ih h
    · simp only [dedupKeepFirst, if_neg hx] at h
      rcases List.mem_cons.mp h with rfl | h
      · exact hx
      · have hns := ih h
        exact fun hs => hns (List.mem_cons_of_mem _ hs)

theorem dedup_codes_nodup (seen : List String) (l : List DictRow) :
    ((dedupKeepFirst seen l).map DictRow.code).Nodup := by
  induction l generalizing seen with
  | nil => simp [dedupKeepFirst]
  | cons x xs ih =>
    by_cases hx : x.code ∈ seen
    · simp only [dedupKeepFirst, if_pos hx]
      exact ih seen
    · simp only [dedupKeepFirst, if_neg hx, List.map_cons, List.nodup_cons]
      refine ⟨?_, ih _⟩
      intro hmem
      rcases List.mem_map.mp hmem with ⟨k, hk, hkc⟩
      exact dedup_code_not_seen hk (by rw [hkc]; exact List.mem_cons_self _ _)

theorem dedup_codes_mem (l : List DictRow) :
    ∀ (seen : List String) (c : String), c ∉ seen →
      (c ∈ (dedupKeepFirst seen l).map DictRow.code ↔ c ∈ l.map DictRow.code) := by
  induction l with
  | nil => intro seen c _; simp [dedupKeepFirst]
  | cons x xs ih =>
    intro seen c hc
    by_cases hx : x.code ∈ seen
    · simp only [dedupKeepFirst, if_pos hx, List.map_cons, List.mem_cons]
      rw [ih seen c hc]
      constructor
      · exact Or.inr
      · rintro (rfl | h)
        · exact absurd hx hc
        · exact h
    · simp only [dedupKeepFirst, if_neg hx, List.map_cons, List.mem_cons]
      by_cases hcx : c = x.code
      · subst hcx; simp
      · simp only [hcx, false_or]
        exact ih _ c (by simp [hcx, hc])

theorem dedup_most_recent {l : List DictRow} (hl : List.Pairwise rDict l) :
    ∀ (seen : List String) (k : DictRow), k ∈ dedupKeepFirst seen l →
      ∀ r ∈ l, r.code = k.code → r.code ∉ seen →
        edBefore k.endDate r.endDate := by
  induction l with
  | nil => intro seen k hk; simp [dedupKeepFirst] at hk
  | cons x xs ih =>
    rw [List.pairwise_cons] at hl
    intro seen k hk r hr hrc hrs
    by_cases hx : x.code ∈ seen
    · simp only [dedupKeepFirst, if_pos hx] at hk
      rcases List.mem_cons.mp hr with rfl | hr
      · exact absurd hx hrs
      · exact ih hl.2 seen k hk r hr hrc hrs
    · simp only [dedupKeepFirst, if_neg hx] at hk
      rcases List.mem_cons.mp hk with rfl | hk
      · rcases List.mem_cons.mp hr with rfl | hr
        · exact edBefore_refl _
        · exact hl.1 r hr
      · have hknot := dedup_code_not_seen hk
        rw [← hrc] at hknot
        rcases List.mem_cons.mp hr with rfl | hr
        · exact absurd (List.mem_cons_self _ _) hknot
        · exact ih hl.2 _ k hk r hr hrc hknot

/-! ### Claim theorems -/

/-- C8: on the period sequence [2019Q4, 2020Q1, 2020Q3] the gap detector
reports exactly [2020Q2]; a contiguous series that merely ends early (each
present period followed by its expected next quarter), such as
[2019Q4, 2020Q1], produces zero gap reports. -/
theorem claim8_gap_detection :
    detect_gaps [(2019, 4), (2020, 1), (2020, 3)] = [(2020, 2)] ∧
    detect_gaps [(2019, 4), (2020, 1)] = [] ∧
    ∀ l : List (Nat × Nat),
      List.Chain' (fun a b => b = expectedNextQuarter a) l →
        detect_gaps l = [] :=
  ⟨by decide, by decide, detect_gaps_chain⟩

theorem claim8_witness :
    List.Chain' (fun a b => b = expectedNextQuarter a) [(2019, 4), (2020, 1)] ∧
      detect_gaps [(2019, 4), (2020, 1)] = [] :=
  ⟨by norm_num [List.chain'_cons, List.chain'_singleton, expectedNextQuarter],
    claim8_gap_detection.2.2 [(2019, 4), (2020, 1)]
      (by norm_num [List.chain'_cons, List.chain'_singleton, expectedNextQuarter])⟩

/-- C10: for a hole of two or more quarters between consecutive present
periods, the gap detector reports only the first missing quarter (the
expected next quarter after the earlier period): [2019Q4, 2020Q3] yields
exactly [2020Q1] and never mentions 2020Q2; in general the report list has
exactly one entry per mismatching consecutive pair, namely that pair's
expected next quarter. -/
theorem claim10_first_missing_only :
    detect_gaps [(2019, 4), (2020, 3)] = [(2020, 1)] ∧
    ((detect_gaps [(2019, 4), (2020, 3)]).contains (2020, 2)) = false ∧
    ∀ l : List (Nat × Nat),
      detect_gaps l =
        (l.zip l.tail).filterMap fun ab =>
          if ab.2 ≠ expectedNextQuarter ab.1 then some (expectedNextQuarter ab.1)
          else none :=
  ⟨by decide, by decide, detect_gaps_eq_filterMap⟩

/-- C4: whenever the Chicago regex matches a two-digit-year/month token
(yy, mm) in a filename, the inferrer returns, for mm in {3, 6, 9, 12}, the
period ending on the correct last calendar day of month mm of year
1900+yy (yy ≥ 76) or 2000+yy (yy < 76); for any other mm it returns no
match. -/
theorem claim4_two_digit_tokens (f : String) (yy mm : Nat)
    (h : searchCall (f.data.map toLowerChar) = some (yy, mm)) :
    ((mm = 3 ∨ mm = 6 ∨ mm = 9 ∨ mm = 12) →
      infer_reporting_period_from_filename f =
        some ⟨(if 76 ≤ yy then 1900 + yy else 2000 + yy), mm,
          daysInMonth (if 76 ≤ yy then 1900 + yy else 2000 + yy) mm⟩) ∧
    (¬(mm = 3 ∨ mm = 6 ∨ mm = 9 ∨ mm = 12) →
      infer_reporting_period_from_filename f = none) := by
  constructor
  · intro hm
    unfold infer_reporting_period_from_filename
    rw [h]
    rcases hm with rfl | rfl | rfl | rfl <;> simp [daysInMonth]
  · intro hm
    push_neg at hm
    unfold infer_reporting_period_from_filename
    rw [h]
    simp [hm.1, hm.2.1, hm.2.2.1, hm.2.2.2]

theorem claim4_witness :
    infer_reporting_period_from_filename "call8503.ext" = some ⟨1985, 3, 31⟩ :=
  (claim4_two_digit_tokens "call8503.ext" 85 3 (by decide)).1 (Or.inl rfl)

/-- C3: `filter_columns` always keeps identifier/period columns; it keeps
any other column exactly when the column's mapped forms intersect
`FFIEC_031_041_FORMS` or the column has at least one non-missing value
(hence: all-missing with no matching form membership is dropped,
all-missing with matching membership is kept, data-bearing without a
dictionary entry is kept). -/
theorem claim3_column_reconciler (m : FormMap) (tbl : FTable) (c : FCol)
    (hc : c ∈ tbl) :
    (toUpperStr c.name ∈ METADATA_COLUMNS → c ∈ filter_columns m tbl) ∧
    (toUpperStr c.name ∉ METADATA_COLUMNS →
      (c ∈ filter_columns m tbl ↔
        ((formsOf m (toUpperStr c.name)).any
            (fun f => decide (f ∈ FFIEC_031_041_FORMS)) = true ∨
          hasData c = true))) := by
  constructor
  · intro hmeta
    unfold filter_columns
    rw [List.mem_filter]
    exact ⟨hc, by simp [keepColumn, hmeta]⟩
  · intro hmeta
    unfold filter_columns
    rw [List.mem_filter]
    constructor
    · rintro ⟨-, hk⟩
      simp only [keepColumn, Bool.or_eq_true, decide_eq_true_eq] at hk
      rcases hk with (hk | hk) | hk
      · exact absurd hk hmeta
      · left
        simp only [onForm, Bool.and_eq_true] at hk
        exact hk.2
      · right; exact hk
    · intro hk
      refine ⟨hc, ?_⟩
      simp only [keepColumn, Bool.or_eq_true, decide_eq_true_eq]
      rcases hk with hk | hk
      · left; right
        simp only [onForm, Bool.and_eq_true]
        refine ⟨?_, hk⟩
        cases m with
        | nil => simp [formsOf, alookup] at hk
        | cons p r => simp [List.isEmpty]
      · right; exact hk

/-- C6: over any input table, after deduplication the descriptor set has
exactly one descriptor per code present in the input (no duplicate codes,
same code set), and the kept descriptor for each code is one of the input
rows whose validity end date is at least as recent as that of every input
row with the same code, where a missing end date counts as most recent. -/
theorem claim6_dictionary_dedup (rows : List DictRow) :
    ((parse_dictionary_dedup rows).map DictRow.code).Nodup ∧
    (∀ c, c ∈ rows.map DictRow.code ↔
      c ∈ (parse_dictionary_dedup rows).map DictRow.code) ∧
    (∀ k ∈ parse_dictionary_dedup rows,
      k ∈ rows ∧ ∀ r ∈ rows, r.code = k.code → edBefore k.endDate r.endDate) := by
  have hperm : List.Perm (sortByEndDateDesc rows) rows :=
    List.perm_insertionSort rDict rows
  have hsorted : List.Pairwise rDict (sortByEndDateDesc rows) :=
    List.sorted_insertionSort rDict rows
  refine ⟨dedup_codes_nodup _ _, ?_, ?_⟩
  · intro c
    rw [parse_dictionary_dedup, dedup_codes_mem _ [] c (by simp)]
    exact ((hperm.map DictRow.code).mem_iff).symm
  · intro k hk
    refine ⟨hperm.mem_iff.mp (dedup_mem_of_mem hk), ?_⟩
    intro r hr hrc
    exact dedup_most_recent hsorted [] k hk r (hperm.mem_iff.mpr hr) hrc
      (by simp)

theorem claim6_witness :
    ((parse_dictionary_dedup
        [⟨"RCON2170", some 100, "old"⟩, ⟨"RCON2170", none, "mr"⟩]).map
        DictRow.code).Nodup ∧
      edBefore (none : Option Nat) (some 100) :=
  ⟨(claim6_dictionary_dedup [⟨"RCON2170", some 100, "old"⟩, ⟨"RCON2170", none, "mr"⟩]).1,
    ((claim6_dictionary_dedup
        [⟨"RCON2170", some 100, "old"⟩, ⟨"RCON2170", none, "mr"⟩]).2.2
      ⟨"RCON2170", none, "mr"⟩ (by decide)).2
      ⟨"RCON2170", some 100, "old"⟩ (by decide) (by decide)⟩

/-! ### Store lemmas for `writeEntities` / `process_quarter` -/

theorem qPathFor_inj_ne (e1 e2 : EntityType) (p1 p2 : CDate)
    (h : e1 ≠ e2) : qPathFor e1 p1 ≠ qPathFor e2 p2 := by
  cases e1 <;> cases e2 <;> simp_all [qPathFor, entityTypeName]

/-- One write step either leaves the store untouched or writes the
artifact `(p, entityRows rows et)` at `qPathFor et p` (hence any other key
is unchanged). -/
theorem writeEntityStep_lookup_other (p : CDate) (rows : List ChRow)
    (acc : List (EntityType × Nat) × ChStore) (et : EntityType) (k : QPath)
    (hk : k ≠ qPathFor et p) :
    alookup (writeEntityStep p rows acc et).2 k = alookup acc.2 k := by
  unfold writeEntityStep
  by_cases ha : entityApplicable p et = true
  · simp only [ha, if_true]
    by_cases hn : 0 < (entityRows rows et).length
    · simp only [hn, if_true]
      exact alookup_awrite_ne _ _ _ _ hk
    · simp only [hn, if_false]
  · simp only [Bool.not_eq_true] at ha
    simp only [ha, Bool.false_eq_true, if_false]

theorem writeEntityStep_not_applicable (p : CDate) (rows : List ChRow)
    (acc : List (EntityType × Nat) × ChStore) (et : EntityType)
    (ha : entityApplicable p et = false) :
    writeEntityStep p rows acc et = acc := by
  unfold writeEntityStep
  simp [ha]

theorem foldW_lookup_preserved (p : CDate) (rows : List ChRow) :
    ∀ (ets : List EntityType) (acc : List (EntityType × Nat) × ChStore)
      (k : QPath),
      (∀ et ∈ ets, entityApplicable p et = true → k ≠ qPathFor et p) →
      alookup (ets.foldl (writeEntityStep p rows) acc).2 k = alookup acc.2 k := by
  intro ets
  induction ets with
  | nil => intro acc k _; rfl
  | cons et rest ih =>
    intro acc k hets
    rw [List.foldl_cons, ih _ k (fun e he => hets e (List.mem_cons_of_mem _ he))]
    by_cases ha : entityApplicable p et = true
    · exact writeEntityStep_lookup_other p rows acc et k
        (hets et (List.mem_cons_self _ _) ha)
    · rw [writeEntityStep_not_applicable p rows acc et
        (Bool.not_eq_true _ ▸ ha)]

theorem foldW_lookup_some (p : CDate) (rows : List ChRow) :
    ∀ (ets : List EntityType) (acc : List (EntityType × Nat) × ChStore)
      (k : QPath) (v : ChArtifact),
      alookup (ets.foldl (writeEntityStep p rows) acc).2 k = some v →
      alookup acc.2 k = some v ∨
        ∃ et, et ∈ ets ∧ entityApplicable p et = true ∧ k = qPathFor et p ∧
          v = (p, entityRows rows et) ∧ 0 < (entityRows rows et).length := by
  intro ets
  induction ets with
  | nil => intro acc k v h0; exact Or.inl h0
  | cons et rest ih =>
    intro acc k v h0
    rw [List.foldl_cons] at h0
    rcases ih _ k v h0 with h1 | ⟨et1, hmem, h1⟩
    · unfold writeEntityStep at h1
      by_cases ha : entityApplicable p et = true
      · simp only [ha, if_true] at h1
        by_cases hn : 0 < (entityRows rows et).length
        · simp only [hn, if_true] at h1
          by_cases hk : k = qPathFor et p
          · subst hk
            rw [alookup_awrite_self] at h1
            refine Or.inr ⟨et, List.mem_cons_self _ _, ha, rfl, ?_, hn⟩
            exact (Option.some.injEq _ _).mp h1.symm
          · rw [alookup_awrite_ne _ _ _ _ hk] at h1
            exact Or.inl h1
        · simp only [hn, if_false] at h1
          exact Or.inl h1
      · simp only [Bool.not_eq_true] at ha
        simp only [ha, Bool.false_eq_true, if_false] at h1
        exact Or.inl h1
    · exact Or.inr ⟨et1, List.mem_cons_of_mem _ hmem, h1⟩

theorem foldW_lookup_self (p : CDate) (rows : List ChRow) :
    ∀ (ets : List EntityType) (acc : List (EntityType × Nat) × ChStore)
      (et : EntityType), ets.Nodup → et ∈ ets →
      entityApplicable p et = true → 0 < (entityRows rows et).length →
      alookup (ets.foldl (writeEntityStep p rows) acc).2 (qPathFor et p) =
        some (p, entityRows rows et) := by
  intro ets
  induction ets with
  | nil => intro acc et _ hmem; simp at hmem
  | cons e rest ih =>
    intro acc et hnd hmem ha hn
    rw [List.nodup_cons] at hnd
    rw [List.foldl_cons]
    rcases List.mem_cons.mp hmem with rfl | hmem
    · rw [foldW_lookup_preserved p rows rest _ _
        (fun e1 he1 _ => qPathFor_inj_ne et e1 p p (fun hee => hnd.1 (hee ▸ he1)))]
      unfold writeEntityStep
      simp only [ha, hn, if_true]
      exact alookup_awrite_self _ _ _
    · exact ih _ et hnd.2 hmem ha hn

/-- Any binding in the store after the split-and-write loop was either
already present or is a freshly written applicable entity table stamped
with the processed period. -/
theorem writeEntities_lookup (p : CDate) (rows : List ChRow) (fs : ChStore)
    (k : QPath) (v : ChArtifact)
    (h : alookup (writeEntities p rows fs).2 k = some v) :
    alookup fs k = some v ∨
      ∃ et, entityApplicable p et = true ∧ k = qPathFor et p ∧
        v = (p, entityRows rows et) ∧ 0 < (entityRows rows et).length := by
  rcases foldW_lookup_some p rows entityTypesList ([], fs) k v h with
    h1 | ⟨et, _, h1⟩
  · exact Or.inl h1
  · exact Or.inr ⟨et, h1⟩

/-- The split-and-write loop stores, at the path of each applicable entity
with a non-empty table, exactly that entity's table stamped with the
period. -/
theorem writeEntities_lookup_self (p : CDate) (rows : List ChRow)
    (fs : ChStore) (et : EntityType)
    (ha : entityApplicable p et = true)
    (hn : 0 < (entityRows rows et).length) :
    alookup (writeEntities p rows fs).2 (qPathFor et p) =
      some (p, entityRows rows et) := by
  refine foldW_lookup_self p rows entityTypesList ([], fs) et ?_ ?_ ha hn
  · simp [entityTypesList]
  · cases et <;> simp [entityTypesList]

/-- If the store already holds, at each applicable non-empty entity's path,
exactly the artifact the loop would write there, the split-and-write loop
leaves the store unchanged (rewriting an identical artifact is a no-op). -/
theorem foldW_noop (p : CDate) (rows : List ChRow) :
    ∀ (ets : List EntityType) (acc : List (EntityType × Nat) × ChStore),
      (∀ et ∈ ets, entityApplicable p et = true →
        0 < (entityRows rows et).length →
        alookup acc.2 (qPathFor et p) = some (p, entityRows rows et)) →
      (ets.foldl (writeEntityStep p rows) acc).2 = acc.2 := by
  intro ets
  induction ets with
  | nil => intro acc _; rfl
  | cons et rest ih =>
    intro acc h
    rw [List.foldl_cons]
    have hstep : (writeEntityStep p rows acc et).2 = acc.2 := by
      unfold writeEntityStep
      by_cases ha : entityApplicable p et = true
      · simp only [ha, if_true]
        by_cases hn : 0 < (entityRows rows et).length
        · simp only [hn, if_true]
          exact awrite_eq_of_alookup _ _ _
            (h et (List.mem_cons_self _ _) ha hn)
        · simp only [hn, if_false]
      · simp only [Bool.not_eq_true] at ha
        simp only [ha, Bool.false_eq_true, if_false]
    have hrest : ∀ e ∈ rest, entityApplicable p e = true →
        0 < (entityRows rows e).length →
        alookup (writeEntityStep p rows acc et).2 (qPathFor e p) =
          some (p, entityRows rows e) := by
      intro e he hae hne
      rw [hstep]
      exact h e (List.mem_cons_of_mem _ he) hae hne
    rw [ih (writeEntityStep p rows acc et) hrest, hstep]

/-- Running the split-and-write loop a second time over its own output
store rewrites every artifact with identical content and leaves the store
unchanged. -/
theorem writeEntities_twice (p : CDate) (rows : List ChRow) (fs : ChStore) :
    (writeEntities p rows (writeEntities p rows fs).2).2 =
      (writeEntities p rows fs).2 :=
  foldW_noop p rows entityTypesList ([], (writeEntities p rows fs).2)
    (fun et _ ha hn => writeEntities_lookup_self p rows fs et ha hn)

/-- C7 counterexample: for the post-2010 period 2011-03-31 and an input
table containing one record with classification code 1 (a value in
FFIEC_031_041's value set), `process_quarter` produces no output at all —
in particular the record does not appear in the FFIEC_031_041 output
table, contrary to the claim that a record whose code lies in exactly one
category's value set appears in that category's output. -/
theorem claim7_counterexample :
    (1 : Int) ∈ rssd9331_values EntityType.FFIEC_031_041 ∧
    (1 : Int) ∉ rssd9331_values EntityType.FFIEC_002 ∧
    (1 : Int) ∉ rssd9331_values EntityType.FRB_2886b ∧
    (process_quarter false ⟨2011, 3, 31⟩ (some (true, [⟨1, 100⟩])) []).2 = [] ∧
    alookup (process_quarter false ⟨2011, 3, 31⟩ (some (true, [⟨1, 100⟩])) []).2
      (qPathFor EntityType.FFIEC_031_041 ⟨2011, 3, 31⟩) = none := by decide

/-- C7 amended: the three categories' value sets are pairwise disjoint; a
record whose code lies in one category's value set belongs to that
category's partition and to no other category's partition, and — provided
the category is applicable for the period (FFIEC_031_041 is skipped for
periods after 2010-12-31) and the quarter is not skipped — the record's
category output table is written and consists exactly of the rows of its
category. -/
theorem claim7_amended :
    (∀ e1 e2 : EntityType, e1 ≠ e2 →
      ∀ v : Int, v ∈ rssd9331_values e1 → v ∉ rssd9331_values e2) ∧
    ∀ (rows : List ChRow) (r : ChRow) (et : EntityType),
      r ∈ rows → r.rssd9331 ∈ rssd9331_values et →
      (r ∈ entityRows rows et ∧
        (∀ et2, et2 ≠ et → r ∉ entityRows rows et2) ∧
        ∀ (p : CDate) (force : Bool) (fs : ChStore) (res : ChOutcome)
          (fs2 : ChStore),
          process_quarter force p (some (true, rows)) fs = (res, fs2) →
          res ≠ ChOutcome.skipped → entityApplicable p et = true →
          alookup fs2 (qPathFor et p) = some (p, entityRows rows et)) := by
  constructor
  · intro e1 e2 hne v h1 h2
    cases e1 <;> cases e2 <;> simp_all [rssd9331_values] <;> omega
  · intro rows r et hr hv
    refine ⟨?_, ?_, ?_⟩
    · rw [entityRows, List.mem_filter]
      exact ⟨hr, by simpa using hv⟩
    · intro et2 hne hmem
      rw [entityRows, List.mem_filter] at hmem
      have hv2 := of_decide_eq_true hmem.2
      cases et <;> cases et2 <;> simp_all [rssd9331_values] <;> omega
    · intro p force fs res fs2 hpq hres ha
      unfold process_quarter at hpq
      by_cases hskip : (!force && allOutputsExist fs p) = true
      · rw [if_pos hskip] at hpq
        exact absurd (congrArg Prod.fst hpq).symm (by simpa using hres)
      · rw [if_neg hskip] at hpq
        simp only [Bool.not_true, Bool.false_eq_true, if_false] at hpq
        have hfs2 : fs2 = (writeEntities p rows fs).2 :=
          (congrArg Prod.snd hpq).symm
        rw [hfs2]
        refine writeEntities_lookup_self p rows fs et ha ?_
        have hmem : r ∈ entityRows rows et := by
          rw [entityRows, List.mem_filter]
          exact ⟨hr, by simpa using hv⟩
        exact List.length_pos.mpr (List.ne_nil_of_mem hmem)

theorem claim7_witness :
    alookup (process_quarter false ⟨2015, 6, 30⟩ (some (true, [⟨10, 7⟩])) []).2
      (qPathFor EntityType.FFIEC_002 ⟨2015, 6, 30⟩) =
      some (⟨2015, 6, 30⟩, entityRows [⟨10, 7⟩] EntityType.FFIEC_002) :=
  (claim7_amended.2 [⟨10, 7⟩] ⟨10, 7⟩ EntityType.FFIEC_002 (by decide)
      (by decide)).2.2
    ⟨2015, 6, 30⟩ false [] _ _ rfl (by decide) (by decide)

/-- C9: for every filing period strictly after 2010-12-31,
`process_quarter` never writes an FFIEC_031_041 output (that path is left
exactly as it was), and a record with classification code 1 appears in no
freshly written categorized output: any output table containing it was
already in the store before the run. -/
theorem claim9_post2010_no_commercial (p : CDate) (hp : dateLt cutoff2010 p)
    (force : Bool) (input : Option (Bool × List ChRow)) (fs : ChStore)
    (res : ChOutcome) (fs2 : ChStore)
    (hpq : process_quarter force p input fs = (res, fs2)) :
    alookup fs2 (qPathFor EntityType.FFIEC_031_041 p) =
      alookup fs (qPathFor EntityType.FFIEC_031_041 p) ∧
    ∀ (r : ChRow), r.rssd9331 = 1 →
      ∀ (et : EntityType) (d : CDate) (rs : List ChRow),
        alookup fs2 (qPathFor et p) = some (d, rs) → r ∈ rs →
        alookup fs (qPathFor et p) = some (d, rs) := by
  have hna : entityApplicable p EntityType.FFIEC_031_041 = false := by
    simp [entityApplicable, hp]
  have hfs2 : fs2 = fs ∨ ∃ rows, fs2 = (writeEntities p rows fs).2 := by
    unfold process_quarter at hpq
    by_cases hskip : (!force && allOutputsExist fs p) = true
    · rw [if_pos hskip] at hpq
      exact Or.inl (congrArg Prod.snd hpq).symm
    · rw [if_neg hskip] at hpq
      match input, hpq with
      | none, hpq => exact Or.inl (congrArg Prod.snd hpq).symm
      | some (hasCol, rows), hpq =>
        by_cases hcol : hasCol = true
        · subst hcol
          simp only [Bool.not_true, Bool.false_eq_true, if_false] at hpq
          exact Or.inr ⟨rows, (congrArg Prod.snd hpq).symm⟩
        · rw [Bool.not_eq_true] at hcol
          subst hcol
          simp only [Bool.not_false, if_true] at hpq
          exact Or.inl (congrArg Prod.snd hpq).symm
  rcases hfs2 with rfl | ⟨rows, hfs2⟩
  · exact ⟨rfl, fun r _ et d rs h _ => h⟩
  · subst hfs2
    constructor
    · refine foldW_lookup_preserved p rows entityTypesList ([], fs) _ ?_
      intro et _ ha heq
      cases et with
      | FFIEC_031_041 => rw [ha] at hna; simp at hna
      | FFIEC_002 => exact qPathFor_inj_ne _ _ p p (by simp) heq
      | FRB_2886b => exact qPathFor_inj_ne _ _ p p (by simp) heq
    · intro r hr1 et d rs hlk hmem
      rcases writeEntities_lookup p rows fs _ _ hlk with h | ⟨et1, ha1, _, hv, _⟩
      · exact h
      · exfalso
        have hrs : rs = entityRows rows et1 := congrArg Prod.snd hv
        rw [hrs] at hmem
        rw [entityRows, List.mem_filter] at hmem
        have hv2 := of_decide_eq_true hmem.2
        rw [hr1] at hv2
        cases et1 with
        | FFIEC_031_041 => rw [ha1] at hna; simp at hna
        | FFIEC_002 => simp [rssd9331_values] at hv2
        | FRB_2886b => simp [rssd9331_values] at hv2

theorem claim9_witness :
    alookup (process_quarter false ⟨2011, 3, 31⟩ (some (true, [⟨1, 100⟩])) []).2
      (qPathFor EntityType.FFIEC_031_041 ⟨2011, 3, 31⟩) =
      alookup ([] : ChStore) (qPathFor EntityType.FFIEC_031_041 ⟨2011, 3, 31⟩) :=
  (claim9_post2010_no_commercial ⟨2011, 3, 31⟩ (by decide) false
    (some (true, [⟨1, 100⟩])) [] _ _ rfl).1

/-! Unfolding equations for the step functions. -/

theorem process_quarter_skip (force : Bool) (p : CDate)
    (input : Option (Bool × List ChRow)) (fs : ChStore)
    (hcond : (!force && allOutputsExist fs p) = true) :
    process_quarter force p input fs = (.skipped, fs) := by
  unfold process_quarter
  rw [if_pos hcond]

theorem process_quarter_read_fail (force : Bool) (p : CDate) (fs : ChStore)
    (hcond : (!force && allOutputsExist fs p) = false) :
    process_quarter force p none fs = (.results [], fs) := by
  unfold process_quarter
  rw [hcond]
  simp

theorem process_quarter_no_col (force : Bool) (p : CDate)
    (rows : List ChRow) (fs : ChStore)
    (hcond : (!force && allOutputsExist fs p) = false) :
    process_quarter force p (some (false, rows)) fs = (.results [], fs) := by
  unfold process_quarter
  rw [hcond]
  simp

theorem process_quarter_write (force : Bool) (p : CDate)
    (rows : List ChRow) (fs : ChStore)
    (hcond : (!force && allOutputsExist fs p) = false) :
    process_quarter force p (some (true, rows)) fs =
      (.results (writeEntities p rows fs).1, (writeEntities p rows fs).2) := by
  unfold process_quarter
  rw [hcond]
  simp

theorem ffiecMainStep_no_quarter (force : Bool) (fname : String)
    (parsed : Option FTable) (m : FormMap) (fs : FStore)
    (hx : extract_quarter_from_filename fname = none) :
    ffiecMainStep force fname parsed m fs = (.errorNoQuarter, fs) := by
  unfold ffiecMainStep
  rw [hx]

theorem ffiecMainStep_skip (force : Bool) (fname : String)
    (parsed : Option FTable) (m : FormMap) (fs : FStore) (y q : Nat)
    (hx : extract_quarter_from_filename fname = some (y, q))
    (hcond : ((alookup fs ⟨"FFIEC_031_041", y, q⟩).isSome && !force) = true) :
    ffiecMainStep force fname parsed m fs = (.skipped, fs) := by
  unfold ffiecMainStep
  rw [hx]
  dsimp only
  rw [if_pos hcond]

theorem ffiecMainStep_no_parse (force : Bool) (fname : String)
    (m : FormMap) (fs : FStore) (y q : Nat)
    (hx : extract_quarter_from_filename fname = some (y, q))
    (hcond : ((alookup fs ⟨"FFIEC_031_041", y, q⟩).isSome && !force) = false) :
    ffiecMainStep force fname none m fs = (.errorNoData, fs) := by
  unfold ffiecMainStep
  rw [hx]
  dsimp only
  rw [hcond]
  simp

theorem ffiecMainStep_empty (force : Bool) (fname : String) (tbl : FTable)
    (m : FormMap) (fs : FStore) (y q : Nat)
    (hx : extract_quarter_from_filename fname = some (y, q))
    (hcond : ((alookup fs ⟨"FFIEC_031_041", y, q⟩).isSome && !force) = false)
    (hemp : tbl.isEmpty = true) :
    ffiecMainStep force fname (some tbl) m fs = (.errorNoData, fs) := by
  unfold ffiecMainStep
  rw [hx]
  dsimp only
  rw [hcond]
  simp [hemp]

theorem ffiecMainStep_success (force : Bool) (fname : String) (tbl : FTable)
    (m : FormMap) (fs : FStore) (y q : Nat)
    (hx : extract_quarter_from_filename fname = some (y, q))
    (hcond : ((alookup fs ⟨"FFIEC_031_041", y, q⟩).isSome && !force) = false)
    (hemp : tbl.isEmpty = false) :
    ffiecMainStep force fname (some tbl) m fs =
      (.success, awrite fs ⟨"FFIEC_031_041", y, q⟩
        (filter_columns m (convert_to_standard_format tbl ⟨y, q * 3, 1⟩))) := by
  unfold ffiecMainStep
  rw [hx]
  dsimp only
  rw [hcond]
  simp [hemp]

theorem process_file_wrapper_no_period (fname : String)
    (input : Option (List ChRow)) (fs : ChStore)
    (hi : infer_reporting_period_from_filename fname = none) :
    process_file_wrapper none none fname input fs = (.skipped, fs) := by
  unfold process_file_wrapper
  rw [hi]

theorem process_file_wrapper_success (fname : String) (rows : List ChRow)
    (fs : ChStore) (rp : CDate)
    (hi : infer_reporting_period_from_filename fname = some rp) :
    process_file_wrapper none none fname (some rows) fs =
      (.success, awrite fs ⟨"", rp.year, quarterOfDate rp⟩ (rp, rows)) := by
  unfold process_file_wrapper
  rw [hi]
  rfl

theorem process_file_wrapper_read_fail (fname : String) (fs : ChStore)
    (rp : CDate)
    (hi : infer_reporting_period_from_filename fname = some rp) :
    process_file_wrapper none none fname none fs = (.error, fs) := by
  unfold process_file_wrapper
  rw [hi]
  rfl

/-- Every `REPORTING_PERIOD` column of the converted-and-filtered FFIEC
table holds only the stamped reporting period, provided the parsed input
had no column whose uppercase name is already `REPORTING_PERIOD`. -/
theorem reporting_period_cells (m : FormMap) (tbl : FTable) (rp : CDate)
    (hno : ∀ c ∈ tbl, toUpperStr c.name ≠ "REPORTING_PERIOD") :
    ∀ c ∈ filter_columns m (convert_to_standard_format tbl rp),
      c.name = "REPORTING_PERIOD" → ∀ cell ∈ c.cells, cell = Cell.date rp := by
  intro c hc hname cell hcell
  rw [filter_columns, List.mem_filter] at hc
  have hc2 := hc.1
  unfold convert_to_standard_format at hc2
  rw [List.mem_flatMap] at hc2
  obtain ⟨nm, _, hcf⟩ := hc2
  rw [List.mem_filter] at hcf
  have hc3 := hcf.1
  rw [List.mem_map] at hc3
  obtain ⟨c0, hc0, hmap⟩ := hc3
  rw [List.mem_append] at hc0
  rcases hc0 with hc0 | hc0
  · exfalso
    rw [List.mem_filter] at hc0
    apply hno c0 hc0.1
    have : toUpperStr c0.name = c.name := congrArg FCol.name hmap
    rw [this, hname]
  · have hc0eq : c0 = ⟨"REPORTING_PERIOD",
        List.replicate ((tbl.head?.map fun c => c.cells.length).getD 0)
          (Cell.date rp)⟩ := by
      simpa using hc0
    have hcells : c.cells = c0.cells := (congrArg FCol.cells hmap).symm
    rw [hcells, hc0eq] at hcell
    exact List.eq_of_mem_replicate hcell

/-- C1 counterexample: processing the FFIEC bulk file
`FFIEC_20240630.txt` (period 2024Q2) writes an artifact whose
`REPORTING_PERIOD` value is 2024-06-01 — the first day of the quarter's
final month, which is not a quarter-end calendar date — refuting the claim
that every written row carries the fixed quarter-end date. -/
theorem claim1_counterexample :
    (ffiecMainStep false "FFIEC_20240630.txt"
        (some [⟨"RSSD_ID", [Cell.num 37]⟩]) [] []).2 =
      [(⟨"FFIEC_031_041", 2024, 2⟩,
        [⟨"RSSD_ID", [Cell.num 37]⟩,
          ⟨"REPORTING_PERIOD", [Cell.date ⟨2024, 6, 1⟩]⟩])] ∧
    isQuarterEndDate ⟨2024, 6, 1⟩ = false := by decide

/-- C1 amended: Chicago-source artifacts do carry the fixed quarter-end
date (every period the Chicago inferrer produces is a quarter-end date,
and every artifact freshly written by the Chicago step is stamped with
such a period); FFIEC-source artifacts instead carry
`(year, 3 * quarter, 1)` — the first day of the quarter's final month — in
every `REPORTING_PERIOD` cell, and such a date is never a quarter-end
date. -/
theorem claim1_amended :
    (∀ (f : String) (d : CDate),
        infer_reporting_period_from_filename f = some d →
        isQuarterEndDate d = true) ∧
    (∀ (force : Bool) (fname : String) (input : Option (Bool × List ChRow))
        (fs : ChStore) (k : QPath) (d : CDate) (rs : List ChRow),
        alookup (chicago04FileStep force fname input fs) k = some (d, rs) →
        alookup fs k = some (d, rs) ∨ isQuarterEndDate d = true) ∧
    (∀ y q : Nat, isQuarterEndDate ⟨y, q * 3, 1⟩ = false) ∧
    (∀ (force : Bool) (fname : String) (tbl : FTable) (m : FormMap)
        (fs : FStore) (st : FStatus) (fs2 : FStore) (y q : Nat),
        extract_quarter_from_filename fname = some (y, q) →
        (∀ c ∈ tbl, toUpperStr c.name ≠ "REPORTING_PERIOD") →
        ffiecMainStep force fname (some tbl) m fs = (st, fs2) →
        ∀ (k : QPath) (out : FTable), alookup fs2 k = some out →
          alookup fs k = some out ∨
          ∀ c ∈ out, c.name = "REPORTING_PERIOD" →
            ∀ cell ∈ c.cells, cell = Cell.date ⟨y, q * 3, 1⟩) := by
  have hinf : ∀ (f : String) (d : CDate),
      infer_reporting_period_from_filename f = some d →
      isQuarterEndDate d = true := by
    intro f d h
    unfold infer_reporting_period_from_filename at h
    cases hs : searchCall (f.data.map toLowerChar) with
    | none => rw [hs] at h; exact absurd h (by simp)
    | some v =>
      obtain ⟨yy, mm⟩ := v
      rw [hs] at h
      dsimp only at h
      split_ifs at h
      all_goals obtain rfl := Option.some.inj h
      all_goals simp [isQuarterEndDate]
  refine ⟨hinf, ?_, ?_, ?_⟩
  · intro force fname input fs k d rs h
    cases hi : infer_reporting_period_from_filename fname with
    | none =>
      unfold chicago04FileStep at h
      rw [hi] at h
      exact Or.inl h
    | some p =>
      have hcf : chicago04FileStep force fname input fs =
          (process_quarter force p input fs).2 := by
        unfold chicago04FileStep
        rw [hi]
      rw [hcf] at h
      by_cases hskip : (!force && allOutputsExist fs p) = true
      · rw [process_quarter_skip force p input fs hskip] at h
        exact Or.inl h
      · rw [Bool.not_eq_true] at hskip
        match input with
        | none =>
          rw [process_quarter_read_fail force p fs hskip] at h
          exact Or.inl h
        | some (false, rows) =>
          rw [process_quarter_no_col force p rows fs hskip] at h
          exact Or.inl h
        | some (true, rows) =>
          rw [process_quarter_write force p rows fs hskip] at h
          rcases writeEntities_lookup p rows fs k (d, rs) h with
            h1 | ⟨et, _, _, hv, _⟩
          · exact Or.inl h1
          · have hd : d = p := congrArg Prod.fst hv
            rw [hd]
            exact Or.inr (hinf fname p hi)
  · intro y q
    simp [isQuarterEndDate]
  · intro force fname tbl m fs st fs2 y q hx hno hstep k out hlk
    by_cases hskip :
        ((alookup fs (⟨"FFIEC_031_041", y, q⟩ : QPath)).isSome && !force) = true
    · rw [ffiecMainStep_skip force fname (some tbl) m fs y q hx hskip] at hstep
      have hfs : fs = fs2 := congrArg Prod.snd hstep
      rw [← hfs] at hlk
      exact Or.inl hlk
    · rw [Bool.not_eq_true] at hskip
      by_cases hemp : tbl.isEmpty = true
      · rw [ffiecMainStep_empty force fname tbl m fs y q hx hskip hemp] at hstep
        have hfs : fs = fs2 := congrArg Prod.snd hstep
        rw [← hfs] at hlk
        exact Or.inl hlk
      · rw [Bool.not_eq_true] at hemp
        rw [ffiecMainStep_success force fname tbl m fs y q hx hskip hemp]
          at hstep
        have hfs2 : fs2 = awrite fs ⟨"FFIEC_031_041", y, q⟩
            (filter_columns m (convert_to_standard_format tbl ⟨y, q * 3, 1⟩)) :=
          (congrArg Prod.snd hstep).symm
        rw [hfs2] at hlk
        by_cases hk : k = (⟨"FFIEC_031_041", y, q⟩ : QPath)
        · subst hk
          rw [alookup_awrite_self] at hlk
          have hout : out = filter_columns m
              (convert_to_standard_format tbl ⟨y, q * 3, 1⟩) :=
            (Option.some.injEq _ _).mp hlk.symm
          rw [hout]
          exact Or.inr (reporting_period_cells m tbl ⟨y, q * 3, 1⟩ hno)
        · rw [alookup_awrite_ne _ _ _ _ hk] at hlk
          exact Or.inl hlk

theorem claim1_witness :
    isQuarterEndDate ⟨1985, 3, 31⟩ = true ∧
      isQuarterEndDate ⟨2024, 6, 1⟩ = false :=
  ⟨claim1_amended.1 "call8503.ext" ⟨1985, 3, 31⟩ (by decide),
    claim1_amended.2.2.1 2024 2⟩

/-- C2 counterexample: the legacy `parse_chicago.py` wrapper has no
skip-if-exists check.  Running it a second time over the same input
(`call8503.xpt`) classifies the period as `success`, not `skipped`,
refuting the claim that a second run classifies every period it
encounters as skipped. -/
theorem claim2_counterexample :
    (process_file_wrapper none none "call8503.xpt" (some [⟨1, 100⟩])
        (process_file_wrapper none none "call8503.xpt"
          (some [⟨1, 100⟩]) []).2).1 = WStatus.success ∧
      WStatus.success ≠ WStatus.skipped := by decide

/-- C2 amended: a second run over the same inputs with force unset never
changes any output artifact (same paths, same content) — proved
unconditionally for all three step functions.  Status reporting differs:
in `05_parse_ffiec.py` the skip-if-exists check precedes the write and the
second run reports an existing period as skipped; in `04_parse_chicago.py`
the second run reports the quarter as skipped when every applicable entity
category was non-empty on the first run (an applicable-but-empty category
causes a re-process that merely rewrites identical content); the legacy
`parse_chicago.py` wrapper, which has no existence check, reproduces the
identical store but reports the period as success again rather than
skipped. -/
theorem claim2_amended :
    (∀ (fname : String) (parsed : Option FTable) (m : FormMap) (fs : FStore)
        (y q : Nat), extract_quarter_from_filename fname = some (y, q) →
        (alookup fs ⟨"FFIEC_031_041", y, q⟩).isSome = true →
        ffiecMainStep false fname parsed m fs = (.skipped, fs)) ∧
    (∀ (fname : String) (parsed : Option FTable) (m : FormMap) (fs : FStore)
        (st : FStatus) (fs1 : FStore),
        ffiecMainStep false fname parsed m fs = (st, fs1) →
        ffiecMainStep false fname parsed m fs1 =
          ((if st = FStatus.success then FStatus.skipped else st), fs1)) ∧
    (∀ (p : CDate) (input : Option (Bool × List ChRow)) (fs : ChStore)
        (res1 : ChOutcome) (fs1 : ChStore) (res2 : ChOutcome) (fs2 : ChStore),
        process_quarter false p input fs = (res1, fs1) →
        process_quarter false p input fs1 = (res2, fs2) →
        fs2 = fs1) ∧
    (∀ (p : CDate) (rows : List ChRow) (fs : ChStore) (res : ChOutcome)
        (fs1 : ChStore),
        process_quarter false p (some (true, rows)) fs = (res, fs1) →
        (∀ et, entityApplicable p et = true →
          0 < (entityRows rows et).length) →
        process_quarter false p (some (true, rows)) fs1 = (.skipped, fs1)) ∧
    (∀ (fname : String) (input : Option (List ChRow)) (fs : ChStore)
        (st : WStatus) (fs1 : ChStore),
        process_file_wrapper none none fname input fs = (st, fs1) →
        process_file_wrapper none none fname input fs1 = (st, fs1)) := by
  refine ⟨?_, ?_, ?_, ?_, ?_⟩
  · intro fname parsed m fs y q hx he
    exact ffiecMainStep_skip false fname parsed m fs y q hx (by simp [he])
  · intro fname parsed m fs st fs1 h
    cases hx : extract_quarter_from_filename fname with
    | none =>
      rw [ffiecMainStep_no_quarter false fname parsed m fs hx] at h
      injection h with hst hfs
      subst hst
      subst hfs
      rw [ffiecMainStep_no_quarter false fname parsed m fs hx]
      simp
    | some v =>
      obtain ⟨y, q⟩ := v
      by_cases he : (alookup fs (⟨"FFIEC_031_041", y, q⟩ : QPath)).isSome = true
      · rw [ffiecMainStep_skip false fname parsed m fs y q hx (by simp [he])]
          at h
        injection h with hst hfs
        subst hst
        subst hfs
        rw [ffiecMainStep_skip false fname parsed m fs y q hx (by simp [he])]
        simp
      · rw [Bool.not_eq_true] at he
        have hcond : ((alookup fs (⟨"FFIEC_031_041", y, q⟩ : QPath)).isSome &&
            !false) = false := by simp [he]
        match parsed with
        | none =>
          rw [ffiecMainStep_no_parse false fname m fs y q hx hcond] at h
          injection h with hst hfs
          subst hst
          subst hfs
          rw [ffiecMainStep_no_parse false fname m fs y q hx hcond]
          simp
        | some tbl =>
          by_cases hemp : tbl.isEmpty = true
          · rw [ffiecMainStep_empty false fname tbl m fs y q hx hcond hemp] at h
            injection h with hst hfs
            subst hst
            subst hfs
            rw [ffiecMainStep_empty false fname tbl m fs y q hx hcond hemp]
            simp
          · rw [Bool.not_eq_true] at hemp
            rw [ffiecMainStep_success false fname tbl m fs y q hx hcond hemp]
              at h
            injection h with hst hfs
            subst hst
            subst hfs
            rw [ffiecMainStep_skip false fname (some tbl) m _ y q hx
              (by simp [alookup_awrite_self])]
            simp
  · intro p input fs res1 fs1 res2 fs2 h1 h2
    by_cases hskip1 : (!false && allOutputsExist fs p) = true
    · rw [process_quarter_skip false p input fs hskip1] at h1
      have hfs1 : fs = fs1 := congrArg Prod.snd h1
      subst hfs1
      rw [process_quarter_skip false p input fs hskip1] at h2
      exact (congrArg Prod.snd h2).symm
    · rw [Bool.not_eq_true] at hskip1
      match input with
      | none =>
        rw [process_quarter_read_fail false p fs hskip1] at h1
        have hfs1 : fs = fs1 := congrArg Prod.snd h1
        subst hfs1
        rw [process_quarter_read_fail false p fs hskip1] at h2
        exact (congrArg Prod.snd h2).symm
      | some (false, rows) =>
        rw [process_quarter_no_col false p rows fs hskip1] at h1
        have hfs1 : fs = fs1 := congrArg Prod.snd h1
        subst hfs1
        rw [process_quarter_no_col false p rows fs hskip1] at h2
        exact (congrArg Prod.snd h2).symm
      | some (true, rows) =>
        rw [process_quarter_write false p rows fs hskip1] at h1
        have hfs1 : (writeEntities p rows fs).2 = fs1 := congrArg Prod.snd h1
        subst hfs1
        by_cases hskip2 :
            (!false && allOutputsExist (writeEntities p rows fs).2 p) = true
        · rw [process_quarter_skip false p (some (true, rows)) _ hskip2] at h2
          exact (congrArg Prod.snd h2).symm
        · rw [Bool.not_eq_true] at hskip2
          rw [process_quarter_write false p rows _ hskip2] at h2
          have hfs2 : (writeEntities p rows (writeEntities p rows fs).2).2 =
              fs2 := congrArg Prod.snd h2
          rw [← hfs2]
          exact writeEntities_twice p rows fs
  · intro p rows fs res fs1 h hne
    have hall : allOutputsExist fs1 p = true := by
      by_cases hskip : (!false && allOutputsExist fs p) = true
      · rw [process_quarter_skip false p _ fs hskip] at h
        have hfs : fs = fs1 := congrArg Prod.snd h
        rw [← hfs]
        simpa using hskip
      · rw [Bool.not_eq_true] at hskip
        rw [process_quarter_write false p rows fs hskip] at h
        have hfs : (writeEntities p rows fs).2 = fs1 := congrArg Prod.snd h
        rw [← hfs]
        unfold allOutputsExist
        rw [List.all_eq_true]
        intro et _
        by_cases ha : entityApplicable p et = true
        · rw [writeEntities_lookup_self p rows fs et ha (hne et ha)]
          simp
        · rw [Bool.not_eq_true] at ha
          rw [ha]
          simp
    exact process_quarter_skip false p _ fs1 (by simp [hall])
  · intro fname input fs st fs1 h
    cases hi : infer_reporting_period_from_filename fname with
    | none =>
      rw [process_file_wrapper_no_period fname _ fs hi] at h
      injection h with hst hfs
      subst hst
      subst hfs
      exact process_file_wrapper_no_period fname _ fs hi
    | some rp =>
      match input with
      | none =>
        rw [process_file_wrapper_read_fail fname fs rp hi] at h
        injection h with hst hfs
        subst hst
        subst hfs
        exact process_file_wrapper_read_fail fname fs rp hi
      | some rows =>
        rw [process_file_wrapper_success fname rows fs rp hi] at h
        injection h with hst hfs
        subst hst
        subst hfs
        rw [process_file_wrapper_success fname rows _ rp hi]
        rw [awrite_eq_of_alookup _ _ _ (alookup_awrite_self _ _ _)]

theorem claim2_witness :
    process_file_wrapper none none "call8503.xpt" (some [⟨1, 100⟩])
        (process_file_wrapper none none "call8503.xpt"
          (some [⟨1, 100⟩]) []).2 =
      ((process_file_wrapper none none "call8503.xpt"
          (some [⟨1, 100⟩]) []).1,
        (process_file_wrapper none none "call8503.xpt"
          (some [⟨1, 100⟩]) []).2) :=
  claim2_amended.2.2.2.2 "call8503.xpt" (some [⟨1, 100⟩]) [] _ _ rfl

/-! ### Lemmas for the 8-digit date token search -/

theorem digitVal_le_nine (c : Char) (h : isDigitChar c = true) :
    digitVal c ≤ 9 := by
  unfold isDigitChar at h
  rw [Bool.and_eq_true, decide_eq_true_eq, decide_eq_true_eq] at h
  unfold digitVal
  omega

theorem take8Digits_cons_nondigit (c : Char) (l : List Char)
    (h : isDigitChar c = false) : take8Digits (c :: l) = none := by
  unfold take8Digits
  rw [if_neg]
  rintro ⟨-, hall⟩
  have ht : (c :: l).take 8 = c :: l.take 7 := rfl
  rw [ht, List.all_cons, Bool.and_eq_true] at hall
  rw [h] at hall
  exact absurd hall.1 (by simp)

theorem searchDigits8_cons (c : Char) (cs : List Char) :
    searchDigits8 (c :: cs) =
      match take8Digits (c :: cs) with
      | some v => some v
      | none => searchDigits8 cs := rfl

theorem searchDigits8_append (pre rest : List Char)
    (h : ∀ c ∈ pre, isDigitChar c = false) :
    searchDigits8 (pre ++ rest) = searchDigits8 rest := by
  induction pre with
  | nil => rfl
  | cons c pre ih =>
    have hc := h c (List.mem_cons_self _ _)
    have h2 : ∀ x ∈ pre, isDigitChar x = false :=
      fun x hx => h x (List.mem_cons_of_mem _ hx)
    rw [List.cons_append, searchDigits8_cons,
      take8Digits_cons_nondigit c _ hc]
    exact ih h2

theorem take8Digits_of_digits (c1 c2 c3 c4 c5 c6 c7 c8 : Char)
    (post : List Char)
    (h1 : isDigitChar c1 = true) (h2 : isDigitChar c2 = true)
    (h3 : isDigitChar c3 = true) (h4 : isDigitChar c4 = true)
    (h5 : isDigitChar c5 = true) (h6 : isDigitChar c6 = true)
    (h7 : isDigitChar c7 = true) (h8 : isDigitChar c8 = true) :
    take8Digits (c1 :: c2 :: c3 :: c4 :: c5 :: c6 :: c7 :: c8 :: post) =
      some [c1, c2, c3, c4, c5, c6, c7, c8] := by
  unfold take8Digits
  have ht : (c1 :: c2 :: c3 :: c4 :: c5 :: c6 :: c7 :: c8 :: post).take 8 =
      [c1, c2, c3, c4, c5, c6, c7, c8] := rfl
  rw [ht, if_pos]
  exact ⟨rfl, by simp [h1, h2, h3, h4, h5, h6, h7, h8]⟩

/-- C5: for a filename whose digit content is a single 8-digit `YYYYMMDD`
token (no digits before it) with year in 1985-2030 and an exact
quarter-end month/day, the extractor returns exactly that date's
(year, quarter).  The `MMDDYYYY` interpretation, tried first, reads the
year's leading `19`/`20` as a month and therefore never validates on such
a token; the `YYYYMMDD` interpretation then validates with the exact
quarter-end day match. -/
theorem claim5_yyyymmdd_tokens (f : String) (pre post : List Char)
    (c1 c2 c3 c4 c5 c6 c7 c8 : Char) (y m d : Nat)
    (hf : f.data = pre ++ [c1, c2, c3, c4, c5, c6, c7, c8] ++ post)
    (hpre : ∀ c ∈ pre, isDigitChar c = false)
    (h1 : isDigitChar c1 = true) (h2 : isDigitChar c2 = true)
    (h3 : isDigitChar c3 = true) (h4 : isDigitChar c4 = true)
    (h5 : isDigitChar c5 = true) (h6 : isDigitChar c6 = true)
    (h7 : isDigitChar c7 = true) (h8 : isDigitChar c8 = true)
    (hy : y = 1000 * digitVal c1 + 100 * digitVal c2 + 10 * digitVal c3 +
      digitVal c4)
    (hm : m = 10 * digitVal c5 + digitVal c6)
    (hd : d = 10 * digitVal c7 + digitVal c8)
    (hy1 : 1985 ≤ y) (hy2 : y ≤ 2030)
    (hqe : (m = 3 ∧ d = 31) ∨ (m = 6 ∧ d = 30) ∨ (m = 9 ∧ d = 30) ∨
      (m = 12 ∧ d = 31)) :
    validQuarter (10 * digitVal c1 + digitVal c2)
      (10 * digitVal c3 + digitVal c4)
      (1000 * digitVal c5 + 100 * digitVal c6 + 10 * digitVal c7 +
        digitVal c8) = none ∧
    extract_quarter_from_filename f = some (y, quarterOfMonth m) := by
  have b1 := digitVal_le_nine c1 h1
  have b2 := digitVal_le_nine c2 h2
  have b3 := digitVal_le_nine c3 h3
  have b4 := digitVal_le_nine c4 h4
  have hmm13 : 13 ≤ 10 * digitVal c1 + digitVal c2 := by omega
  have hnone : validQuarter (10 * digitVal c1 + digitVal c2)
      (10 * digitVal c3 + digitVal c4)
      (1000 * digitVal c5 + 100 * digitVal c6 + 10 * digitVal c7 +
        digitVal c8) = none := by
    unfold validQuarter
    rw [if_neg]
    rintro ⟨-, h12, -⟩
    omega
  refine ⟨hnone, ?_⟩
  have hcnd : 1 ≤ m ∧ m ≤ 12 ∧ 1 ≤ d ∧ d ≤ 31 ∧ 1985 ≤ y ∧ y ≤ 2030 := by
    omega
  have hvalid : validQuarter m d y = some (y, quarterFromMonthDay m d) := by
    unfold validQuarter
    rw [if_pos hcnd]
  have hq : quarterFromMonthDay m d = quarterOfMonth m := by
    rcases hqe with ⟨hma, hda⟩ | ⟨hma, hda⟩ | ⟨hma, hda⟩ | ⟨hma, hda⟩ <;>
      subst hma <;> subst hda <;> rfl
  have hsearch : searchDigits8 f.data =
      some [c1, c2, c3, c4, c5, c6, c7, c8] := by
    rw [hf, List.append_assoc, searchDigits8_append pre _ hpre]
    show searchDigits8 (c1 :: c2 :: c3 :: c4 :: c5 :: c6 :: c7 :: c8 :: post) = _
    rw [searchDigits8_cons,
      take8Digits_of_digits c1 c2 c3 c4 c5 c6 c7 c8 post h1 h2 h3 h4 h5 h6 h7 h8]
  unfold extract_quarter_from_filename
  rw [hsearch]
  dsimp only [List.map_cons, List.map_nil]
  rw [hnone]
  dsimp only
  rw [← hm, ← hd, ← hy]
  rw [hvalid, hq]

theorem claim5_witness :
    extract_quarter_from_filename "FFIEC_20240630.txt" = some (2024, 2) :=
  (claim5_yyyymmdd_tokens "FFIEC_20240630.txt"
    ['F', 'F', 'I', 'E', 'C', '_'] ['.', 't', 'x', 't']
    '2' '0' '2' '4' '0' '6' '3' '0' 2024 6 30
    (by decide) (by decide) (by decide) (by decide) (by decide) (by decide)
    (by decide) (by decide) (by decide) (by decide) (by decide) (by decide)
    (by decide) (by decide) (by decide)
    (Or.inr (Or.inl (by decide)))).2

theorem claim3_witness :
    (⟨"RCON0002", [Cell.na]⟩ : FCol) ∈
      filter_columns [("RCON0002", "FFIEC 031")] [⟨"RCON0002", [Cell.na]⟩] :=
  ((claim3_column_reconciler [("RCON0002", "FFIEC 031")]
      [⟨"RCON0002", [Cell.na]⟩] ⟨"RCON0002", [Cell.na]⟩ (by decide)).2
    (by decide)).mpr (Or.inl (by decide))

end CallReport
